import Mathlib

/-!
# The prune command of img (prune.go)

A shallow embedding of `pruneCommand.Run` and of the Go semantics it relies on
(byte strings, wrapping int64 addition, binary64 multiplication and conversion,
deferred calls), followed by the properties of the usage summary, of the table
rows, of the prune request and of the order of effects.
-/

namespace Img

/-! ## Data model -/

/-- A Go string is an immutable sequence of bytes: `len` counts bytes and
`s[i:j]` slices bytes. Every element is a byte value (below 256). -/
abbrev GoString := List Nat

/-- The fields of a usage record (`controlapi.UsageRecord`) that Run reads.
`Size_` is an int64. -/
structure UsageRecord where
  ID : GoString
  Mutable : Bool
  InUse : Bool
  Size_ : Int
  Description : GoString
deriving DecidableEq, Repr

/-! ## int64 arithmetic -/

/-- Reduction of an integer to the int64 range by two's complement. -/
def wrapInt64 (x : Int) : Int :=
  (x + 9223372036854775808) % 18446744073709551616 - 9223372036854775808

/-- Go's `+` on int64 operands: the sum wraps around on overflow. -/
def addInt64 (a b : Int) : Int := wrapInt64 (a + b)

/-! ## The aggregation loop (prune.go lines 103-113) -/

/-- The pair `(total, reclaimable)` of the loop. -/
structure Totals where
  total : Int
  reclaimable : Int
deriving DecidableEq, Repr

/-- One iteration of `for _, di := range usage` at lines 106-113. -/
def aggregateStep (acc : Totals) (di : UsageRecord) : Totals :=
  if di.Size_ > 0 then
    let total := addInt64 acc.total di.Size_
    if !di.InUse then
      { total := total, reclaimable := addInt64 acc.reclaimable di.Size_ }
    else
      { total := total, reclaimable := acc.reclaimable }
  else
    acc

/-- The loop of lines 103-113, started from `total := 0`, `reclaimable := 0`. -/
def aggregate (usage : List UsageRecord) : Totals :=
  usage.foldl aggregateStep { total := 0, reclaimable := 0 }

/-- The mathematical sum of `Size_` over the records with `Size_ > 0`. -/
def sumPositive (usage : List UsageRecord) : Int :=
  ((usage.filter (fun di => decide (di.Size_ > 0))).map (fun di => di.Size_)).sum

/-- The mathematical sum of `Size_` over the records with `Size_ > 0` that are
not in use. -/
def sumReclaimable (usage : List UsageRecord) : Int :=
  ((usage.filter (fun di => decide (di.Size_ > 0) && !di.InUse)).map (fun di => di.Size_)).sum

/-! ## Strings and formatting -/

/-- UTF-8 encoding of a code point, the encoding Go uses for string literals
and for text in general. -/
def utf8EncodeRune (c : Nat) : GoString :=
  if c < 128 then [c]
  else if c < 2048 then [192 + c / 64, 128 + c % 64]
  else if c < 65536 then [224 + c / 4096, 128 + c / 64 % 64, 128 + c % 64]
  else [240 + c / 262144, 128 + c / 4096 % 64, 128 + c / 64 % 64, 128 + c % 64]

/-- The Go string holding a text: the UTF-8 bytes of its characters. -/
def goString (s : String) : GoString :=
  s.data.flatMap (fun c => utf8EncodeRune c.toNat)

/-- The verb `%t` of package fmt. -/
def formatBool (b : Bool) : GoString :=
  if b then goString "true" else goString "false"

/-- Lines 89-92: `id := di.ID; if di.Mutable { id += "*" }`. -/
def rowID (di : UsageRecord) : GoString :=
  if di.Mutable then di.ID ++ goString "*" else di.ID

/-- Lines 93-96: `desc := di.Description; if len(desc) > 50 { desc = desc[0:50] + "..." }`. -/
def rowDesc (di : UsageRecord) : GoString :=
  if di.Description.length > 50 then di.Description.take 50 ++ goString "..."
  else di.Description

/-- Line 97: `Fprintf(tw, "%s\t%t\t%s\t%s\n", id, !di.InUse, units.BytesSize(float64(di.Size_)), desc)`.
The parameter `bytesSize n` stands for `units.BytesSize(float64(n))`. -/
def formatRow (bytesSize : Int → GoString) (di : UsageRecord) : GoString :=
  rowID di ++ [9] ++ formatBool (!di.InUse) ++ [9] ++ bytesSize di.Size_ ++ [9]
    ++ rowDesc di ++ [10]

/-- Line 86: `Fprintln(tw, "ID\tRECLAIMABLE\tSIZE\tDESCRIPTION")`. -/
def tableHeader : GoString :=
  goString "ID\tRECLAIMABLE\tSIZE\tDESCRIPTION" ++ [10]

/-- Lines 86-98: the text handed to the tabwriter in table mode, the header
followed by what the loop over `usage` appends. -/
def tableText (bytesSize : Int → GoString) (usage : List UsageRecord) : GoString :=
  usage.foldl (fun buf di => buf ++ formatRow bytesSize di) tableHeader

/-- Lines 116-117: the two summary lines handed to the second tabwriter. -/
def summaryText (bytesSize : Int → GoString) (t : Totals) : GoString :=
  goString "Reclaimed:\t" ++ bytesSize t.reclaimable ++ [10]
    ++ (goString "Total:\t" ++ bytesSize t.total ++ [10])

/-! ## float64 arithmetic -/

/-- Number of bits of a natural number, with `fuel` bounding the recursion. -/
def bitLengthAux : Nat → Nat → Nat
  | 0, _ => 0
  | fuel + 1, n => if n = 0 then 0 else bitLengthAux fuel (n / 2) + 1

/-- Number of bits of a natural number: the least `k` with `n < 2 ^ k`. -/
def bitLength (n : Nat) : Nat := bitLengthAux n n

/-- A float64 (IEEE 754 binary64) value. `finite sign mant exp` is the number
`(-1) ^ sign * mant * 2 ^ exp`; a float64 has `mant < 2 ^ 53` and
`-1074 ≤ exp ≤ 971`. -/
inductive Float64 where
  | finite (sign : Bool) (mant : Nat) (exp : Int)
  | inf (sign : Bool)
  | nan
deriving DecidableEq, Repr

/-- The float64 with a given bit pattern (`math.Float64frombits`). -/
def Float64.frombits (b : Nat) : Float64 :=
  let sign : Bool := decide (b / 2 ^ 63 % 2 = 1)
  let ex : Nat := b / 2 ^ 52 % 2048
  let frac : Nat := b % 2 ^ 52
  if ex = 2047 then (if frac = 0 then Float64.inf sign else Float64.nan)
  else if ex = 0 then Float64.finite sign frac (-1074)
  else Float64.finite sign (frac + 2 ^ 52) ((ex : Int) - 1075)

/-- The rational number a finite float64 stands for (0 for infinities and NaN). -/
def Float64.toRat : Float64 → ℚ
  | Float64.finite sign mant exp => (if sign then -1 else 1) * (mant : ℚ) * (2 : ℚ) ^ exp
  | _ => 0

/-- The quotient `m / 2 ^ k` rounded to the nearest integer, ties to even. -/
def roundHalfEven (m k : Nat) : Nat :=
  let q := m / 2 ^ k
  let r := m % 2 ^ k
  if 2 * r > 2 ^ k ∨ (2 * r = 2 ^ k ∧ q % 2 = 1) then q + 1 else q

/-- The float64 for `mant * 2 ^ exp` once `mant` has at most 53 bits (or is
`2 ^ 53` after a rounding carry): overflow gives an infinity. -/
def packFloat64 (sign : Bool) (m : Nat) (e : Int) : Float64 :=
  if m = 0 then Float64.finite sign 0 0
  else if (bitLength m : Int) + e > 1024 then Float64.inf sign
  else if bitLength m > 53 then Float64.finite sign (m / 2) (e + 1)
  else if e > 971 then Float64.finite sign (m * 2 ^ (e - 971).toNat) 971
  else Float64.finite sign m e

/-- The exact value `m * 2 ^ e` rounded to float64, to nearest with ties to
even: the low bits beyond a 53-bit mantissa, or below the exponent -1074 of
the subnormal numbers, are rounded away. -/
def roundFloat64 (sign : Bool) (m : Nat) (e : Int) : Float64 :=
  let drop : Int := max ((bitLength m : Int) - 53) (-1074 - e)
  if drop ≤ 0 then packFloat64 sign m e
  else packFloat64 sign (roundHalfEven m drop.toNat) (e + drop)

/-- Go's `*` on float64 operands: the exact product, rounded. -/
def Float64.mul : Float64 → Float64 → Float64
  | Float64.nan, _ => Float64.nan
  | _, Float64.nan => Float64.nan
  | Float64.inf s, Float64.inf t => Float64.inf (s != t)
  | Float64.inf s, Float64.finite t n _ => if n = 0 then Float64.nan else Float64.inf (s != t)
  | Float64.finite s m _, Float64.inf t => if m = 0 then Float64.nan else Float64.inf (s != t)
  | Float64.finite s m e, Float64.finite t n f => roundFloat64 (s != t) (m * n) (e + f)

/-- The constant `1e6` as a float64. -/
def float64_1e6 : Float64 := Float64.finite false 1000000 0

/-- A finite float64 with its fraction discarded (truncation towards zero);
nothing for infinities and NaN. -/
def Float64.truncate : Float64 → Option Int
  | Float64.finite sign mant exp =>
    let mag : Nat := if 0 ≤ exp then mant * 2 ^ exp.toNat else mant / 2 ^ (-exp).toNat
    some (if sign then -(mag : Int) else (mag : Int))
  | _ => none

/-- The conversion `int64(x)` of a float64: the fraction is discarded. When the
result does not fit an int64 the conversion yields an implementation-dependent
int64, here the one `unrepresentable x` reduces to. -/
def int64OfFloat64 (unrepresentable : Float64 → Int) (x : Float64) : Int :=
  match x.truncate with
  | some n =>
    if -9223372036854775808 ≤ n ∧ n < 9223372036854775808 then n
    else wrapInt64 (unrepresentable x)
  | none => wrapInt64 (unrepresentable x)

/-- A rational number with its fraction discarded (truncation towards zero). -/
def truncRat (q : ℚ) : Int := if 0 ≤ q then ⌊q⌋ else ⌈q⌉

/-- The rational `q` is the magnitude of a finite float64. -/
def IsFloat64Magnitude (q : ℚ) : Prop :=
  ∃ n : Nat, ∃ f : Int, n < 2 ^ 53 ∧ -1074 ≤ f ∧ f ≤ 971 ∧ q = (n : ℚ) * (2 : ℚ) ^ f

/-! ## The command and its environment -/

/-- A Go `error` value. -/
structure GoError where
  msg : GoString
deriving DecidableEq, Repr

/-- The struct `pruneCommand`; `filters` holds what `cmd.filters.GetAll()`
returns, `keepDuration` is a `time.Duration` (an int64). -/
structure pruneCommand where
  keepDuration : Int
  keepStorageMB : Float64
  filters : List GoString
  all : Bool
deriving DecidableEq, Repr

/-- The request `controlapi.PruneRequest` built at lines 71-76. -/
structure PruneRequest where
  Filter : List GoString
  All : Bool
  KeepDuration : Int
  KeepBytes : Int
deriving DecidableEq, Repr

/-- What lies outside prune.go: the outcomes of the calls to the backend, the
global `debug`, the functions of other packages and files, and the
implementation-dependent part of `int64(x)`. -/
structure World where
  /-- The error `client.New(stateDir, backend, nil)` returns, if any. -/
  clientNew : Option GoError
  /-- What `c.Prune(ctx, req)` returns. -/
  prune : PruneRequest → Except GoError (List UsageRecord)
  /-- The global `debug`. -/
  debug : Bool
  /-- The composition `units.BytesSize(float64(n))`. -/
  bytesSize : Int → GoString
  /-- The value of `int64(x)` when `x` does not fit an int64. -/
  int64Unrepresentable : Float64 → Int

/-- The observable steps of a run, in order. -/
inductive Event where
  /-- The call `reexec()`. -/
  | reexec
  /-- The call `client.New(stateDir, backend, nil)`. -/
  | clientNew
  /-- The call `c.Prune(ctx, req)`. -/
  | prune (req : PruneRequest)
  /-- The call `printDebug(tw, usage)`. -/
  | printDebug (usage : List UsageRecord)
  /-- A `tw.Flush()`: the text handed to the tabwriter since its creation goes,
  column-aligned, to `os.Stdout`. -/
  | stdout (text : GoString)
  /-- The call `c.Close()`. -/
  | close
deriving DecidableEq, Repr

/-- The result of a run: the steps taken and the error returned (`none` for `nil`). -/
structure Outcome where
  trace : List Event
  err : Option GoError
deriving DecidableEq, Repr

/-- Line 75: `int64(cmd.keepStorageMB * 1e6)`. -/
def keepBytes (unrepresentable : Float64 → Int) (keepStorageMB : Float64) : Int :=
  int64OfFloat64 unrepresentable (Float64.mul keepStorageMB float64_1e6)

/-- Lines 71-76: the request passed to `c.Prune`. -/
def pruneRequest (w : World) (cmd : pruneCommand) : PruneRequest :=
  { Filter := cmd.filters
    All := cmd.all
    KeepDuration := cmd.keepDuration
    KeepBytes := keepBytes w.int64Unrepresentable cmd.keepStorageMB }

/-- A function body run after `defer c.Close()`: the deferred call runs when
the body returns, whatever it returns. -/
def deferClose (body : Outcome) : Outcome :=
  { trace := body.trace ++ [Event.close], err := body.err }

/-- Lines 81-120: the report, once `c.Prune` has returned `usage`. -/
def report (w : World) (usage : List UsageRecord) : List Event :=
  (if w.debug then [Event.printDebug usage]
   else [Event.stdout (tableText w.bytesSize usage)])
    ++ [Event.stdout (summaryText w.bytesSize (aggregate usage))]

/-- Lines 71-120: the body of Run after `defer c.Close()`. -/
def runBody (w : World) (cmd : pruneCommand) : Outcome :=
  let req := pruneRequest w cmd
  match w.prune req with
  | Except.error err => { trace := [Event.prune req], err := some err }
  | Except.ok usage => { trace := Event.prune req :: report w usage, err := none }

/-- The method `pruneCommand.Run`. The call `reexec()` is taken to return, and
the creation of the context (lines 59-62), which only feeds `c.Prune`, is not
a step of its own. On the error of `client.New` Run returns before the
`defer`; afterwards every return runs the deferred `c.Close()`. -/
def Run (w : World) (cmd : pruneCommand) : Outcome :=
  match w.clientNew with
  | some err => { trace := [Event.reexec, Event.clientNew], err := some err }
  | none =>
    let rest := deferClose (runBody w cmd)
    { trace := Event.reexec :: Event.clientNew :: rest.trace, err := rest.err }

/-- The steps of a trace that print: flushes to standard output and calls of
`printDebug`. -/
def printed (trace : List Event) : List Event :=
  trace.filter (fun ev =>
    match ev with
    | Event.stdout _ => true
    | Event.printDebug _ => true
    | _ => false)

/-- The requests of the calls to `c.Prune` in a trace. -/
def pruneCalls (trace : List Event) : List PruneRequest :=
  trace.filterMap (fun ev =>
    match ev with
    | Event.prune req => some req
    | _ => none)

/-- The number of calls to `c.Close()` in a trace. -/
def closeCount (trace : List Event) : Nat :=
  trace.countP (fun ev =>
    match ev with
    | Event.close => true
    | _ => false)

/-- A world in table mode where `client.New` succeeds and `c.Prune` returns
the given result, with the int64 conversion of amd64 (an unrepresentable
value converts to the least int64). -/
def tableWorld (bytesSize : Int → GoString)
    (result : Except GoError (List UsageRecord)) : World :=
  { clientNew := none
    prune := fun _ => result
    debug := false
    bytesSize := bytesSize
    int64Unrepresentable := fun _ => -9223372036854775808 }

/-- The command without flags: every option at its default. -/
def defaultCommand : pruneCommand :=
  { keepDuration := 0, keepStorageMB := Float64.finite false 0 0, filters := [], all := false }

/-! ## The size renderer of the spec -/

/-- The decimal digits of a natural number, as ASCII bytes. -/
def decimal (n : Nat) : GoString := (Nat.toDigits 10 n).map Char.toNat

/-- The number of divisions by 1000 that bring `n` below 1000, at most `fuel`. -/
def unitIndex : Nat → Nat → Nat
  | 0, _ => 0
  | fuel + 1, n => if 1000 ≤ n then unitIndex fuel (n / 1000) + 1 else 0

/-- The digits after the decimal point of `frac / 10 ^ width`, without
trailing zeros. -/
def fractionDigits (width frac : Nat) : GoString :=
  let ds := decimal frac
  ((List.replicate (width - ds.length) 48 ++ ds).reverse.dropWhile (fun d => d == 48)).reverse

/-- Modelled from the spec: `units.BytesSize` of package
github.com/docker/go-units, which renders the sizes of the rows and of the
summary, is missing from the source. The spec has a size rendered as a
human-readable byte quantity in one convention throughout, and its scenarios
fix that convention: `0B`, `500kB`, `1MB`, that is decimal units, the count
divided by 1000 until it is below 1000. The digits of a quotient that is not
whole are printed exactly; the spec does not fix them and no scenario has any. -/
def BytesSize (size : Int) : GoString :=
  if size < 0 then goString "-" ++ decimal size.natAbs ++ goString "B"
  else
    let n := size.toNat
    let k := unitIndex 8 n
    let frac := fractionDigits (3 * k) (n % 1000 ^ k)
    decimal (n / 1000 ^ k) ++ (if frac = [] then [] else goString "." ++ frac)
      ++ (["B", "kB", "MB", "GB", "TB", "PB", "EB", "ZB", "YB"].map goString).getD k []

/-! ## Lemmas on the aggregation loop -/

theorem wrapInt64_add_left (a s : Int) : wrapInt64 (wrapInt64 a + s) = wrapInt64 (a + s) := by
  unfold wrapInt64
  omega

theorem wrapInt64_of_range (x : Int) (h0 : -9223372036854775808 ≤ x)
    (h1 : x < 9223372036854775808) : wrapInt64 x = x := by
  unfold wrapInt64
  omega

theorem sumPositive_nil : sumPositive [] = 0 := rfl

theorem sumReclaimable_nil : sumReclaimable [] = 0 := rfl

theorem sumPositive_cons (di : UsageRecord) (rest : List UsageRecord) :
    sumPositive (di :: rest)
      = (if di.Size_ > 0 then di.Size_ else 0) + sumPositive rest := by
  unfold sumPositive
  by_cases h : di.Size_ > 0 <;> simp [List.filter_cons, h]

theorem sumReclaimable_cons (di : UsageRecord) (rest : List UsageRecord) :
    sumReclaimable (di :: rest)
      = (if di.Size_ > 0 ∧ di.InUse = false then di.Size_ else 0) + sumReclaimable rest := by
  unfold sumReclaimable
  by_cases h : di.Size_ > 0 <;> cases hu : di.InUse <;> simp [List.filter_cons, h, hu]

theorem foldl_aggregateStep (usage : List UsageRecord) (a b : Int) :
    usage.foldl aggregateStep { total := wrapInt64 a, reclaimable := wrapInt64 b }
      = { total := wrapInt64 (a + sumPositive usage),
          reclaimable := wrapInt64 (b + sumReclaimable usage) } := by
  induction usage generalizing a b with
  | nil => simp [sumPositive_nil, sumReclaimable_nil]
  | cons di rest ih =>
    rw [List.foldl_cons, sumPositive_cons, sumReclaimable_cons]
    by_cases h : di.Size_ > 0
    · cases hu : di.InUse
      · have hs : aggregateStep { total := wrapInt64 a, reclaimable := wrapInt64 b } di
            = { total := wrapInt64 (a + di.Size_), reclaimable := wrapInt64 (b + di.Size_) } := by
          simp [aggregateStep, h, hu, addInt64, wrapInt64_add_left]
        rw [hs, ih]
        simp [h, add_assoc]
      · have hs : aggregateStep { total := wrapInt64 a, reclaimable := wrapInt64 b } di
            = { total := wrapInt64 (a + di.Size_), reclaimable := wrapInt64 b } := by
          simp [aggregateStep, h, hu, addInt64, wrapInt64_add_left]
        rw [hs, ih]
        simp [h, add_assoc]
    · have hs : aggregateStep { total := wrapInt64 a, reclaimable := wrapInt64 b } di
          = { total := wrapInt64 a, reclaimable := wrapInt64 b } := by
        simp [aggregateStep, h]
      rw [hs, ih]
      simp [h]

theorem aggregate_eq_wrap (usage : List UsageRecord) :
    aggregate usage
      = { total := wrapInt64 (sumPositive usage),
          reclaimable := wrapInt64 (sumReclaimable usage) } := by
  have h := foldl_aggregateStep usage 0 0
  simpa [aggregate, wrapInt64] using h

theorem sumReclaimable_nonneg (usage : List UsageRecord) : 0 ≤ sumReclaimable usage := by
  induction usage with
  | nil => simp [sumReclaimable_nil]
  | cons di rest ih =>
    rw [sumReclaimable_cons]
    split <;> omega

theorem sumReclaimable_le_sumPositive (usage : List UsageRecord) :
    sumReclaimable usage ≤ sumPositive usage := by
  induction usage with
  | nil => simp [sumReclaimable_nil, sumPositive_nil]
  | cons di rest ih =>
    rw [sumReclaimable_cons, sumPositive_cons]
    split <;> split <;> omega

theorem sumPositive_nonneg (usage : List UsageRecord) : 0 ≤ sumPositive usage :=
  le_trans (sumReclaimable_nonneg usage) (sumReclaimable_le_sumPositive usage)

theorem sumReclaimable_eq_sumPositive_iff (usage : List UsageRecord) :
    sumReclaimable usage = sumPositive usage
      ↔ ∀ di ∈ usage, di.Size_ > 0 → di.InUse = false := by
  induction usage with
  | nil => simp [sumReclaimable_nil, sumPositive_nil]
  | cons di rest ih =>
    have hle := sumReclaimable_le_sumPositive rest
    rw [sumReclaimable_cons, sumPositive_cons, List.forall_mem_cons, ← ih]
    by_cases h : di.Size_ > 0
    · cases hu : di.InUse
      · simp [h]
      · simp only [h, if_true, true_and, Bool.true_eq_false, if_false, forall_const, false_and]
        constructor
        · intro heq
          omega
        · exact False.elim
    · simp [h]

theorem sumReclaimable_eq_zero (usage : List UsageRecord)
    (h : ∀ di ∈ usage, di.Size_ > 0 → di.InUse = true) : sumReclaimable usage = 0 := by
  induction usage with
  | nil => exact sumReclaimable_nil
  | cons di rest ih =>
    rw [List.forall_mem_cons] at h
    rw [sumReclaimable_cons, ih h.2]
    by_cases hs : di.Size_ > 0
    · simp [h.1 hs]
    · simp [hs]

theorem sumPositive_perm {l₁ l₂ : List UsageRecord} (h : l₁.Perm l₂) :
    sumPositive l₁ = sumPositive l₂ := by
  unfold sumPositive
  exact ((h.filter _).map _).sum_eq

theorem sumReclaimable_perm {l₁ l₂ : List UsageRecord} (h : l₁.Perm l₂) :
    sumReclaimable l₁ = sumReclaimable l₂ := by
  unfold sumReclaimable
  exact ((h.filter _).map _).sum_eq

theorem aggregate_of_no_overflow (usage : List UsageRecord)
    (h : sumPositive usage < 9223372036854775808) :
    aggregate usage
      = { total := sumPositive usage, reclaimable := sumReclaimable usage } := by
  have h0 := sumReclaimable_nonneg usage
  have h1 := sumReclaimable_le_sumPositive usage
  rw [aggregate_eq_wrap, wrapInt64_of_range _ (by omega) h,
    wrapInt64_of_range _ (by omega) (by omega)]

theorem flatMap_utf8EncodeRune_of_ascii (cs : List Char) (h : ∀ c ∈ cs, c.toNat < 128) :
    cs.flatMap (fun c => utf8EncodeRune c.toNat) = cs.map Char.toNat := by
  induction cs with
  | nil => rfl
  | cons c rest ih =>
    rw [List.forall_mem_cons] at h
    have hc : utf8EncodeRune c.toNat = [c.toNat] := by simp [utf8EncodeRune, h.1]
    rw [List.flatMap_cons, List.map_cons, hc, ih h.2]
    rfl

theorem goString_of_ascii (s : String) (h : ∀ c ∈ s.data, c.toNat < 128) :
    goString s = s.data.map Char.toNat :=
  flatMap_utf8EncodeRune_of_ascii s.data h

theorem foldl_formatRow (bytesSize : Int → GoString) (usage : List UsageRecord)
    (buf : GoString) :
    usage.foldl (fun buf di => buf ++ formatRow bytesSize di) buf
      = buf ++ (usage.map (formatRow bytesSize)).flatten := by
  induction usage generalizing buf with
  | nil => simp
  | cons di rest ih => simp [ih, List.append_assoc]

theorem tableText_eq (bytesSize : Int → GoString) (usage : List UsageRecord) :
    tableText bytesSize usage = tableHeader ++ (usage.map (formatRow bytesSize)).flatten :=
  foldl_formatRow bytesSize usage tableHeader

theorem Run_of_new_error (w : World) (cmd : pruneCommand) (err : GoError)
    (hnew : w.clientNew = some err) :
    Run w cmd = { trace := [Event.reexec, Event.clientNew], err := some err } := by
  simp [Run, hnew]

theorem Run_of_prune_error (w : World) (cmd : pruneCommand) (err : GoError)
    (hnew : w.clientNew = none) (hprune : w.prune (pruneRequest w cmd) = Except.error err) :
    Run w cmd
      = { trace := [Event.reexec, Event.clientNew, Event.prune (pruneRequest w cmd), Event.close],
          err := some err } := by
  simp [Run, hnew, runBody, hprune, deferClose]

theorem Run_of_prune_ok (w : World) (cmd : pruneCommand) (usage : List UsageRecord)
    (hnew : w.clientNew = none) (hprune : w.prune (pruneRequest w cmd) = Except.ok usage) :
    Run w cmd
      = { trace := Event.reexec :: Event.clientNew :: Event.prune (pruneRequest w cmd)
            :: (report w usage ++ [Event.close]),
          err := none } := by
  simp [Run, hnew, runBody, hprune, deferClose]

theorem printed_Run_of_prune_ok (w : World) (cmd : pruneCommand) (usage : List UsageRecord)
    (hnew : w.clientNew = none) (hprune : w.prune (pruneRequest w cmd) = Except.ok usage) :
    printed (Run w cmd).trace = report w usage := by
  rw [Run_of_prune_ok w cmd usage hnew hprune]
  cases hdebug : w.debug <;> simp [printed, report, hdebug, List.filter_cons]

theorem pruneCalls_Run (w : World) (cmd : pruneCommand) (hnew : w.clientNew = none) :
    pruneCalls (Run w cmd).trace = [pruneRequest w cmd] := by
  cases hprune : w.prune (pruneRequest w cmd) with
  | error err =>
    rw [Run_of_prune_error w cmd err hnew hprune]
    simp [pruneCalls]
  | ok usage =>
    rw [Run_of_prune_ok w cmd usage hnew hprune]
    cases hdebug : w.debug <;> simp [pruneCalls, report, hdebug, List.filterMap_cons]

/-! ## Lemmas on float64 arithmetic -/

theorem bitLengthAux_lt (fuel n : Nat) (h : n ≤ fuel) : n < 2 ^ bitLengthAux fuel n := by
  induction fuel generalizing n with
  | zero =>
    have : n = 0 := by omega
    simp [bitLengthAux, this]
  | succ fuel ih =>
    unfold bitLengthAux
    by_cases hn : n = 0
    · simp [hn]
    · simp only [hn, if_false]
      have := ih (n / 2) (by omega)
      rw [pow_succ]
      omega

theorem bitLengthAux_zero (fuel : Nat) : bitLengthAux fuel 0 = 0 := by
  cases fuel <;> simp [bitLengthAux]

theorem bitLengthAux_le (fuel n : Nat) (h : n ≤ fuel) (hn : n ≠ 0) :
    2 ^ (bitLengthAux fuel n - 1) ≤ n := by
  induction fuel generalizing n with
  | zero => omega
  | succ fuel ih =>
    unfold bitLengthAux
    simp only [hn, if_false, Nat.add_sub_cancel]
    by_cases h2 : n / 2 = 0
    · rw [h2, bitLengthAux_zero]
      simp
      omega
    · have := ih (n / 2) (by omega) h2
      have hpos : bitLengthAux fuel (n / 2) ≠ 0 := by
        intro h0
        have := bitLengthAux_lt fuel (n / 2) (by omega)
        rw [h0] at this
        omega
      obtain ⟨b, hb⟩ := Nat.exists_eq_succ_of_ne_zero hpos
      rw [hb] at this ⊢
      rw [pow_succ]
      simp only [Nat.succ_sub_one] at this
      omega

theorem lt_two_pow_bitLength (n : Nat) : n < 2 ^ bitLength n :=
  bitLengthAux_lt n n (le_refl n)

theorem two_pow_bitLength_le (n : Nat) (hn : n ≠ 0) : 2 ^ (bitLength n - 1) ≤ n :=
  bitLengthAux_le n n (le_refl n) hn

theorem bitLength_le_of_lt (n j : Nat) (h : n < 2 ^ j) : bitLength n ≤ j := by
  by_cases hn : n = 0
  · rw [hn]
    simp [bitLength, bitLengthAux]
  · have h1 := two_pow_bitLength_le n hn
    have h2 : 2 ^ (bitLength n - 1) < 2 ^ j := lt_of_le_of_lt h1 h
    have h3 := (Nat.pow_lt_pow_iff_right (by norm_num : 1 < 2)).mp h2
    omega

theorem floor_scaled (m : Nat) (e : Int) :
    ⌊(m : ℚ) * (2 : ℚ) ^ e⌋
      = ((if 0 ≤ e then m * 2 ^ e.toNat else m / 2 ^ (-e).toNat : Nat) : Int) := by
  by_cases he : 0 ≤ e
  · obtain ⟨k, rfl⟩ := Int.eq_ofNat_of_zero_le he
    simp only [he, if_true, Int.toNat_ofNat, zpow_natCast]
    have : (m : ℚ) * (2 : ℚ) ^ k = ((m * 2 ^ k : Nat) : ℚ) := by push_cast; ring
    rw [this, Int.floor_natCast]
  · simp only [he, if_false]
    have hneg : e = -(((-e).toNat : Nat) : Int) := by omega
    have : (m : ℚ) * (2 : ℚ) ^ e = (m : ℚ) / ((2 ^ (-e).toNat : Nat) : ℚ) := by
      conv_lhs => rw [hneg]
      rw [zpow_neg, zpow_natCast, div_eq_mul_inv]
      push_cast
      ring
    rw [this, Rat.floor_natCast_div_natCast]
    norm_cast

theorem scaled_nonneg (m : Nat) (e : Int) : 0 ≤ (m : ℚ) * (2 : ℚ) ^ e :=
  mul_nonneg (Nat.cast_nonneg m) (zpow_nonneg (by norm_num) e)

theorem truncate_eq_truncRat (s : Bool) (m : Nat) (e : Int) :
    (Float64.finite s m e).truncate
      = some (truncRat (Float64.toRat (Float64.finite s m e))) := by
  have hx := scaled_nonneg m e
  have hfl := floor_scaled m e
  cases s
  · simp only [Float64.truncate, Float64.toRat, truncRat, Bool.false_eq_true, if_false, one_mul,
      hx, if_true, hfl]
  · simp only [Float64.truncate, Float64.toRat, truncRat, if_true, neg_mul, one_mul,
      Option.some.injEq]
    by_cases h0 : (m : ℚ) * (2 : ℚ) ^ e = 0
    · have hfl0 := hfl
      rw [h0, Int.floor_zero] at hfl0
      rw [h0, ← hfl0]
      simp
    · have hpos : 0 < (m : ℚ) * (2 : ℚ) ^ e := lt_of_le_of_ne hx (Ne.symm h0)
      have hneg : ¬ (0 ≤ -((m : ℚ) * (2 : ℚ) ^ e)) := by linarith
      rw [if_neg hneg, Int.ceil_neg, hfl]

theorem bitLength_pos (q : Nat) (hq : q ≠ 0) : 1 ≤ bitLength q := by
  have h := lt_two_pow_bitLength q
  by_contra hc
  have h0 : bitLength q = 0 := by omega
  rw [h0] at h
  omega

theorem two_zpow_bitLength_le (q : Nat) (hq : q ≠ 0) :
    (2 : ℚ) ^ ((bitLength q : Int) - 1) ≤ (q : ℚ) := by
  have h1 := two_pow_bitLength_le q hq
  have hpos := bitLength_pos q hq
  have hcast : ((bitLength q : Int) - 1) = ((bitLength q - 1 : Nat) : Int) := by omega
  rw [hcast, zpow_natCast]
  exact_mod_cast h1

theorem packFloat64_value (s : Bool) (q : Nat) (e : Int) (hbits : bitLength q ≤ 53)
    (hrange : (q : ℚ) * (2 : ℚ) ^ e < 9223372036854775808) :
    ∃ m e', packFloat64 s q e = Float64.finite s m e'
      ∧ (m : ℚ) * (2 : ℚ) ^ e' = (q : ℚ) * (2 : ℚ) ^ e := by
  unfold packFloat64
  by_cases hq : q = 0
  · exact ⟨0, 0, by simp [hq], by simp [hq]⟩
  · have hover : ¬ ((bitLength q : Int) + e > 1024) := by
      intro h
      have h1 := two_zpow_bitLength_le q hq
      have h2 : (2 : ℚ) ^ (63 : Int) ≤ (2 : ℚ) ^ (((bitLength q : Int) - 1) + e) :=
        zpow_le_zpow_right₀ (by norm_num) (by omega)
      rw [zpow_add₀ (by norm_num : (2 : ℚ) ≠ 0)] at h2
      have h3 : (2 : ℚ) ^ ((bitLength q : Int) - 1) * (2 : ℚ) ^ e ≤ (q : ℚ) * (2 : ℚ) ^ e :=
        mul_le_mul_of_nonneg_right h1 (zpow_nonneg (by norm_num) e)
      have h4 : (2 : ℚ) ^ (63 : Int) = 9223372036854775808 := by norm_num
      linarith
    have hbits' : ¬ (bitLength q > 53) := by omega
    by_cases he : e > 971
    · refine ⟨q * 2 ^ (e - 971).toNat, 971, by simp [hq, hover, hbits', he], ?_⟩
      have hsplit : e = (((e - 971).toNat : Nat) : Int) + 971 := by omega
      conv_rhs => rw [hsplit, zpow_add₀ (by norm_num : (2 : ℚ) ≠ 0), zpow_natCast]
      push_cast
      ring
    · exact ⟨q, e, by simp [hq, hover, hbits', he], rfl⟩

theorem roundHalfEven_of_dvd (q k : Nat) : roundHalfEven (q * 2 ^ k) k = q := by
  have hpos : 0 < 2 ^ k := Nat.pow_pos (by norm_num)
  unfold roundHalfEven
  simp only [Nat.mul_mod_left, Nat.mul_div_cancel _ hpos]
  have : ¬ (2 * 0 > 2 ^ k ∨ (2 * 0 = 2 ^ k ∧ q % 2 = 1)) := by omega
  simp only [this, if_false]

theorem roundFloat64_exact (s : Bool) (M : Nat) (E : Int)
    (hrep : IsFloat64Magnitude ((M : ℚ) * (2 : ℚ) ^ E))
    (hrange : (M : ℚ) * (2 : ℚ) ^ E < 9223372036854775808) :
    ∃ m e, roundFloat64 s M E = Float64.finite s m e
      ∧ (m : ℚ) * (2 : ℚ) ^ e = (M : ℚ) * (2 : ℚ) ^ E := by
  have h2 : (2 : ℚ) ≠ 0 := by norm_num
  unfold roundFloat64
  by_cases hk : max ((bitLength M : Int) - 53) (-1074 - E) ≤ 0
  · simp only [hk, if_true]
    exact packFloat64_value s M E (by omega) hrange
  · simp only [hk, if_false]
    by_cases hM : M = 0
    · refine ⟨0, 0, ?_, by simp [hM]⟩
      simp [hM, roundHalfEven, packFloat64]
    · obtain ⟨n, f, hn, hf, _, heq⟩ := hrep
      -- the mantissa is `n` shifted left
      have hMeq : (M : ℚ) = (n : ℚ) * (2 : ℚ) ^ (f - E) := by
        rw [zpow_sub₀ h2, mul_div_assoc', ← heq]
        field_simp
      have hL := two_zpow_bitLength_le M hM
      have hshift : max ((bitLength M : Int) - 53) (-1074 - E) ≤ f - E := by
        by_contra hc
        have hle : f - E ≤ (bitLength M : Int) - 54 := by omega
        have h1 : (2 : ℚ) ^ (f - E) ≤ (2 : ℚ) ^ ((bitLength M : Int) - 54) :=
          zpow_le_zpow_right₀ (by norm_num) hle
        have hn' : (n : ℚ) < 2 ^ 53 := by exact_mod_cast hn
        have hpos : (0 : ℚ) < (2 : ℚ) ^ ((bitLength M : Int) - 54) := zpow_pos (by norm_num) _
        have h3 : (n : ℚ) * (2 : ℚ) ^ (f - E) ≤ (n : ℚ) * (2 : ℚ) ^ ((bitLength M : Int) - 54) :=
          mul_le_mul_of_nonneg_left h1 (Nat.cast_nonneg n)
        have h4 : (n : ℚ) * (2 : ℚ) ^ ((bitLength M : Int) - 54)
            < 2 ^ 53 * (2 : ℚ) ^ ((bitLength M : Int) - 54) :=
          mul_lt_mul_of_pos_right hn' hpos
        have h5 : (2 : ℚ) ^ 53 * (2 : ℚ) ^ ((bitLength M : Int) - 54)
            = (2 : ℚ) ^ ((bitLength M : Int) - 1) := by
          rw [← zpow_natCast (2 : ℚ) 53, ← zpow_add₀ h2]
          congr 1
          omega
        linarith
      obtain ⟨k, hkdef⟩ : ∃ k : Nat, max ((bitLength M : Int) - 53) (-1074 - E) = (k : Int) :=
        ⟨(max ((bitLength M : Int) - 53) (-1074 - E)).toNat, by omega⟩
      obtain ⟨d, hddef⟩ : ∃ d : Nat, f - E = ((k + d : Nat) : Int) :=
        ⟨(f - E - k).toNat, by omega⟩
      rw [hkdef] at hk ⊢
      have hMnat : M = n * 2 ^ d * 2 ^ k := by
        have : (M : ℚ) = ((n * 2 ^ d * 2 ^ k : Nat) : ℚ) := by
          rw [hMeq, hddef, zpow_natCast]
          push_cast
          ring
        exact_mod_cast this
      have hround : roundHalfEven M (k : Int).toNat = n * 2 ^ d := by
        rw [Int.toNat_ofNat, hMnat, roundHalfEven_of_dvd]
      rw [hround]
      have hlt : n * 2 ^ d < 2 ^ 53 := by
        have hMlt := lt_two_pow_bitLength M
        have hLk : bitLength M ≤ 53 + k := by omega
        have : 2 ^ bitLength M ≤ 2 ^ (53 + k) := Nat.pow_le_pow_right (by norm_num) hLk
        rw [pow_add] at this
        have hpos : 0 < 2 ^ k := Nat.pow_pos (by norm_num)
        have h6 : n * 2 ^ d * 2 ^ k < 2 ^ 53 * 2 ^ k := by omega
        exact Nat.lt_of_mul_lt_mul_right h6
      have hval : ((n * 2 ^ d : Nat) : ℚ) * (2 : ℚ) ^ (E + (k : Int))
          = (M : ℚ) * (2 : ℚ) ^ E := by
        rw [hMnat, zpow_add₀ h2, zpow_natCast]
        push_cast
        ring
      obtain ⟨m, e, hpack, hm⟩ := packFloat64_value s (n * 2 ^ d) (E + (k : Int))
        (bitLength_le_of_lt _ 53 hlt) (by rw [hval]; exact hrange)
      exact ⟨m, e, hpack, hm.trans hval⟩

theorem truncRat_range (v : ℚ) (hlo : -9223372036854775808 < v) (hhi : v < 9223372036854775808) :
    -9223372036854775808 ≤ truncRat v ∧ truncRat v < 9223372036854775808 := by
  unfold truncRat
  by_cases h0 : 0 ≤ v
  · simp only [h0, if_true]
    constructor
    · have : (0 : Int) ≤ ⌊v⌋ := Int.floor_nonneg.mpr h0
      omega
    · have : ⌊v⌋ < (9223372036854775808 : Int) := by
        rw [Int.floor_lt]
        exact_mod_cast hhi
      exact this
  · simp only [h0, if_false]
    constructor
    · have : ((-9223372036854775808 : Int) : ℚ) < v := by exact_mod_cast hlo
      have h1 : ((-9223372036854775808 : Int) : ℚ) < (⌈v⌉ : ℚ) := lt_of_lt_of_le this (Int.le_ceil v)
      have h2 : (-9223372036854775808 : Int) < ⌈v⌉ := by exact_mod_cast h1
      omega
    · have : ⌈v⌉ ≤ (0 : Int) := by
        rw [Int.ceil_le]
        push_cast
        linarith
      omega

theorem wrapInt64_range (x : Int) :
    -9223372036854775808 ≤ wrapInt64 x ∧ wrapInt64 x < 9223372036854775808 := by
  unfold wrapInt64
  omega

theorem int64OfFloat64_range (u : Float64 → Int) (x : Float64) :
    -9223372036854775808 ≤ int64OfFloat64 u x ∧ int64OfFloat64 u x < 9223372036854775808 := by
  unfold int64OfFloat64
  cases x.truncate with
  | none => exact wrapInt64_range _
  | some n =>
    by_cases h : -9223372036854775808 ≤ n ∧ n < 9223372036854775808
    · simp only [h, and_self, if_true]
    · simp only [h, if_false]
      exact wrapInt64_range _

theorem int64OfFloat64_of_range (u : Float64 → Int) (s : Bool) (m : Nat) (e : Int)
    (hlo : -9223372036854775808 ≤ truncRat (Float64.toRat (Float64.finite s m e)))
    (hhi : truncRat (Float64.toRat (Float64.finite s m e)) < 9223372036854775808) :
    int64OfFloat64 u (Float64.finite s m e)
      = truncRat (Float64.toRat (Float64.finite s m e)) := by
  unfold int64OfFloat64
  rw [truncate_eq_truncRat]
  simp only [hlo, hhi, and_self, if_true]

theorem keepBytes_exact (u : Float64 → Int) (s : Bool) (m : Nat) (e : Int)
    (hrep : IsFloat64Magnitude ((m : ℚ) * (2 : ℚ) ^ e * 1000000))
    (hrange : (m : ℚ) * (2 : ℚ) ^ e * 1000000 < 9223372036854775808) :
    keepBytes u (Float64.finite s m e)
      = truncRat (Float64.toRat (Float64.finite s m e) * 1000000) := by
  have hprod : ((m * 1000000 : Nat) : ℚ) * (2 : ℚ) ^ e = (m : ℚ) * (2 : ℚ) ^ e * 1000000 := by
    push_cast
    ring
  obtain ⟨m', e', hround, hval⟩ := roundFloat64_exact s (m * 1000000) e
    (by rw [hprod]; exact hrep) (by rw [hprod]; exact hrange)
  have hmul : Float64.mul (Float64.finite s m e) float64_1e6 = Float64.finite s m' e' := by
    simp only [Float64.mul, float64_1e6, Bool.bne_false, add_zero]
    exact hround
  have hrat : Float64.toRat (Float64.finite s m' e')
      = Float64.toRat (Float64.finite s m e) * 1000000 := by
    simp only [Float64.toRat]
    rw [mul_assoc, hval, hprod]
    ring
  have hnonneg := scaled_nonneg m e
  have hr := truncRat_range (Float64.toRat (Float64.finite s m e) * 1000000)
    (by cases s <;> simp only [Float64.toRat] <;> simp <;> linarith)
    (by cases s <;> simp only [Float64.toRat] <;> simp <;> linarith)
  unfold keepBytes int64OfFloat64
  rw [hmul, truncate_eq_truncRat, hrat]
  simp only [hr.1, hr.2, and_self, if_true]

/-! ## The usage summary -/

/-- Claim C1, as stated, fails: for two records of 2^62 bytes each, not in
use, the sum of the sizes is 2^63, but the int64 additions of the loop wrap
around and leave total = reclaimable = -2^63. -/
theorem aggregate_overflow_counterexample :
    sumPositive [⟨[97], false, false, 4611686018427387904, []⟩,
        ⟨[98], false, false, 4611686018427387904, []⟩] = 9223372036854775808
      ∧ aggregate [⟨[97], false, false, 4611686018427387904, []⟩,
        ⟨[98], false, false, 4611686018427387904, []⟩]
        = { total := -9223372036854775808, reclaimable := -9223372036854775808 }
      ∧ (aggregate [⟨[97], false, false, 4611686018427387904, []⟩,
        ⟨[98], false, false, 4611686018427387904, []⟩]).total
        ≠ sumPositive [⟨[97], false, false, 4611686018427387904, []⟩,
        ⟨[98], false, false, 4611686018427387904, []⟩] := by
  decide

/-- Claim C1, amended: for every sequence of records, the total and the
reclaimable count of the loop are the sum of Size_ over the records with
Size_ > 0, and that sum restricted to the records not in use, each reduced to
int64 by two's complement; when the positive sizes sum to less than 2^63 they
are these sums themselves. -/
theorem aggregate_eq_sums (usage : List UsageRecord) :
    aggregate usage
        = { total := wrapInt64 (sumPositive usage),
            reclaimable := wrapInt64 (sumReclaimable usage) }
      ∧ (sumPositive usage < 9223372036854775808 →
          (aggregate usage).total = sumPositive usage
            ∧ (aggregate usage).reclaimable = sumReclaimable usage) := by
  refine ⟨aggregate_eq_wrap usage, fun h => ?_⟩
  rw [aggregate_of_no_overflow usage h]
  exact ⟨rfl, rfl⟩

/-- The amended claim C1 at the records of 1000000 bytes (free) and 500000
bytes (in use): total 1500000, reclaimable 1000000. -/
theorem aggregate_eq_sums_witness :
    sumPositive [⟨[97], false, false, 1000000, [120]⟩, ⟨[98], true, true, 500000, [121]⟩]
        < 9223372036854775808
      ∧ (aggregate [⟨[97], false, false, 1000000, [120]⟩,
          ⟨[98], true, true, 500000, [121]⟩]).total = 1500000
      ∧ (aggregate [⟨[97], false, false, 1000000, [120]⟩,
          ⟨[98], true, true, 500000, [121]⟩]).reclaimable = 1000000 := by
  have hlt : sumPositive [⟨[97], false, false, 1000000, [120]⟩,
      ⟨[98], true, true, 500000, [121]⟩] < 9223372036854775808 := by decide
  have h := (aggregate_eq_sums [⟨[97], false, false, 1000000, [120]⟩,
      ⟨[98], true, true, 500000, [121]⟩]).2 hlt
  refine ⟨hlt, ?_, ?_⟩
  · rw [h.1]; decide
  · rw [h.2]; decide

/-- Claim C2: two record sequences that are permutations of each other give
the same (total, reclaimable) pair in the aggregation loop. -/
theorem aggregate_perm (l₁ l₂ : List UsageRecord) (h : l₁.Perm l₂) :
    aggregate l₁ = aggregate l₂ := by
  rw [aggregate_eq_wrap, aggregate_eq_wrap, sumPositive_perm h, sumReclaimable_perm h]

/-- Claim C2 at a sequence of three records and a rotation of it. -/
theorem aggregate_perm_witness :
    List.Perm
        [(⟨[97], false, false, 7, []⟩ : UsageRecord), ⟨[98], false, true, 5, []⟩,
          ⟨[99], true, false, -3, []⟩]
        [⟨[98], false, true, 5, []⟩, ⟨[99], true, false, -3, []⟩, ⟨[97], false, false, 7, []⟩]
      ∧ aggregate [⟨[97], false, false, 7, []⟩, ⟨[98], false, true, 5, []⟩,
          ⟨[99], true, false, -3, []⟩]
        = aggregate [⟨[98], false, true, 5, []⟩, ⟨[99], true, false, -3, []⟩,
          ⟨[97], false, false, 7, []⟩] :=
  have hp : List.Perm
      [(⟨[97], false, false, 7, []⟩ : UsageRecord), ⟨[98], false, true, 5, []⟩,
        ⟨[99], true, false, -3, []⟩]
      [⟨[98], false, true, 5, []⟩, ⟨[99], true, false, -3, []⟩, ⟨[97], false, false, 7, []⟩] :=
    @List.perm_append_comm UsageRecord [⟨[97], false, false, 7, []⟩]
      [⟨[98], false, true, 5, []⟩, ⟨[99], true, false, -3, []⟩]
  ⟨hp, aggregate_perm _ _ hp⟩

/-- Claim C10: when the positive sizes sum to less than 2^63, the totals of
the loop satisfy 0 <= reclaimable <= total; reclaimable = total exactly when
no record with Size_ > 0 is in use; and reclaimable = 0 when every record with
Size_ > 0 is in use. -/
theorem aggregate_bounds (usage : List UsageRecord)
    (h : sumPositive usage < 9223372036854775808) :
    0 ≤ (aggregate usage).reclaimable
      ∧ (aggregate usage).reclaimable ≤ (aggregate usage).total
      ∧ ((aggregate usage).reclaimable = (aggregate usage).total
          ↔ ∀ di ∈ usage, di.Size_ > 0 → di.InUse = false)
      ∧ ((∀ di ∈ usage, di.Size_ > 0 → di.InUse = true)
          → (aggregate usage).reclaimable = 0) := by
  rw [aggregate_of_no_overflow usage h]
  exact ⟨sumReclaimable_nonneg usage, sumReclaimable_le_sumPositive usage,
    sumReclaimable_eq_sumPositive_iff usage, sumReclaimable_eq_zero usage⟩

/-- Claim C10 at one record in use (500000 bytes) and one of size 0:
reclaimable is 0 and total is 500000. -/
theorem aggregate_bounds_witness :
    sumPositive [⟨[98], true, true, 500000, [121]⟩, ⟨[99], false, false, 0, []⟩]
        < 9223372036854775808
      ∧ 0 ≤ (aggregate [⟨[98], true, true, 500000, [121]⟩,
          ⟨[99], false, false, 0, []⟩]).reclaimable
      ∧ (aggregate [⟨[98], true, true, 500000, [121]⟩,
          ⟨[99], false, false, 0, []⟩]).reclaimable
        ≤ (aggregate [⟨[98], true, true, 500000, [121]⟩, ⟨[99], false, false, 0, []⟩]).total :=
  have hlt : sumPositive [⟨[98], true, true, 500000, [121]⟩, ⟨[99], false, false, 0, []⟩]
      < 9223372036854775808 := by decide
  ⟨hlt, (aggregate_bounds _ hlt).1, (aggregate_bounds _ hlt).2.1⟩

/-! ## The rows of the table -/

/-- Claim C3, as stated, fails: a description of 26 characters `é` (two bytes
each in UTF-8, 52 bytes) has 50 characters or fewer, yet it is rendered as its
first 50 bytes, 25 characters, followed by `...`. -/
theorem rowDesc_characters_counterexample :
    (String.mk (List.replicate 26 'é')).length ≤ 50
      ∧ rowDesc ⟨[97], false, false, 1, goString (String.mk (List.replicate 26 'é'))⟩
        = goString (String.mk (List.replicate 25 'é')) ++ goString "..."
      ∧ rowDesc ⟨[97], false, false, 1, goString (String.mk (List.replicate 26 'é'))⟩
        ≠ goString (String.mk (List.replicate 26 'é')) := by
  decide

/-- Claim C3, amended: in table mode the last cell of a record's row is the
first 50 bytes of the description followed by `...` when the description is
longer than 50 bytes, and the description unchanged when it has 50 bytes or
fewer; for a description of ASCII characters only, one byte each, that is the
first 50 characters followed by `...` when it is longer than 50 characters,
and the description unchanged otherwise. -/
theorem rowDesc_bytes (bytesSize : Int → GoString) (di : UsageRecord) :
    formatRow bytesSize di
        = rowID di ++ [9] ++ formatBool (!di.InUse) ++ [9] ++ bytesSize di.Size_ ++ [9]
          ++ rowDesc di ++ [10]
      ∧ rowDesc di
        = (if di.Description.length > 50 then di.Description.take 50 ++ [46, 46, 46]
           else di.Description)
      ∧ ∀ s : String, (∀ c ∈ s.data, c.toNat < 128) → di.Description = goString s →
          rowDesc di
            = if s.length > 50 then goString (s.take 50) ++ goString "..." else goString s := by
  refine ⟨rfl, rfl, fun s hs hd => ?_⟩
  have htake : ∀ c ∈ (s.take 50).data, c.toNat < 128 := by
    intro c hc
    rw [String.data_take] at hc
    exact hs c (List.mem_of_mem_take hc)
  have h1 : goString s = s.data.map Char.toNat := goString_of_ascii s hs
  have h2 : goString (s.take 50) = (s.data.take 50).map Char.toNat := by
    rw [goString_of_ascii (s.take 50) htake, String.data_take]
  have hlen : (goString s).length = s.length := by
    rw [h1, List.length_map]
    rfl
  unfold rowDesc
  rw [hd, hlen, h2, h1, List.map_take]

set_option maxRecDepth 8000 in
/-- The amended claim C3 at the description of 51 letters `a`: it is rendered
as 50 letters `a` followed by `...`. -/
theorem rowDesc_bytes_witness :
    (∀ c ∈ (String.mk (List.replicate 51 'a')).data, c.toNat < 128)
      ∧ rowDesc ⟨[97], false, false, 1, goString (String.mk (List.replicate 51 'a'))⟩
        = goString (String.mk (List.replicate 50 'a')) ++ goString "..." := by
  have hascii : ∀ c ∈ (String.mk (List.replicate 51 'a')).data, c.toNat < 128 := by decide
  have h := (rowDesc_bytes (fun _ => [])
    ⟨[97], false, false, 1, goString (String.mk (List.replicate 51 'a'))⟩).2.2
      (String.mk (List.replicate 51 'a')) hascii rfl
  refine ⟨hascii, ?_⟩
  rw [h]
  decide

/-- Claim C9: in table mode the first cell of a record's row is the record's
ID followed by the single byte `*` when Mutable is true, and the record's ID
unchanged when Mutable is false. -/
theorem rowID_marker (bytesSize : Int → GoString) (di : UsageRecord) :
    formatRow bytesSize di
        = rowID di ++ [9] ++ formatBool (!di.InUse) ++ [9] ++ bytesSize di.Size_ ++ [9]
          ++ rowDesc di ++ [10]
      ∧ rowID di = di.ID ++ (if di.Mutable then goString "*" else [])
      ∧ goString "*" = [42]
      ∧ (rowID di).length = di.ID.length + (if di.Mutable then 1 else 0) := by
  refine ⟨rfl, ?_, by decide, ?_⟩
  · cases hm : di.Mutable <;> simp [rowID, hm]
  · cases hm : di.Mutable <;> simp [rowID, hm, goString, utf8EncodeRune]

/-- Claim C7: in table mode, when the backend returns `usage`, Run prints the
header followed by the rows of the records of `usage`, one each and in the
order of `usage`, whatever their sizes, then the summary. -/
theorem Run_table_rows (w : World) (cmd : pruneCommand) (usage : List UsageRecord)
    (hnew : w.clientNew = none) (hdebug : w.debug = false)
    (hprune : w.prune (pruneRequest w cmd) = Except.ok usage) :
    printed (Run w cmd).trace
        = [Event.stdout (tableHeader ++ (usage.map (formatRow w.bytesSize)).flatten),
           Event.stdout (summaryText w.bytesSize (aggregate usage))]
      ∧ (usage.map (formatRow w.bytesSize)).length = usage.length
      ∧ ∀ (i : Nat) (h : i < usage.length),
          (usage.map (formatRow w.bytesSize))[i]? = some (formatRow w.bytesSize usage[i]) := by
  refine ⟨?_, List.length_map _ _, fun i h => ?_⟩
  · rw [printed_Run_of_prune_ok w cmd usage hnew hprune]
    simp [report, hdebug, tableText_eq]
  · simp [List.getElem?_map, List.getElem?_eq_getElem h]

/-- Claim C7 at a backend that returns a record of 7 bytes and then a record
of size 0: two rows after the header, in that order. -/
theorem Run_table_rows_witness :
    printed
        (Run (tableWorld (fun n => decimal n.toNat)
          (Except.ok [⟨[97], false, false, 7, [120]⟩, ⟨[98], true, true, 0, [121]⟩]))
          defaultCommand).trace
      = [Event.stdout (tableHeader
            ++ (formatRow (fun n => decimal n.toNat) ⟨[97], false, false, 7, [120]⟩
              ++ formatRow (fun n => decimal n.toNat) ⟨[98], true, true, 0, [121]⟩)),
         Event.stdout (summaryText (fun n => decimal n.toNat) ⟨7, 7⟩)] := by
  have h := (Run_table_rows
    (tableWorld (fun n => decimal n.toNat)
      (Except.ok [⟨[97], false, false, 7, [120]⟩, ⟨[98], true, true, 0, [121]⟩]))
    defaultCommand [⟨[97], false, false, 7, [120]⟩, ⟨[98], true, true, 0, [121]⟩]
    rfl rfl rfl).1
  rw [h]
  decide

/-! ## Errors and the release of the backend handle -/

/-- Claim C6: when `client.New` succeeds and `c.Prune` returns an error, Run
returns that error and prints nothing; its steps are the two calls and the
deferred `c.Close()`. -/
theorem Run_prune_error (w : World) (cmd : pruneCommand) (err : GoError)
    (hnew : w.clientNew = none) (hprune : w.prune (pruneRequest w cmd) = Except.error err) :
    (Run w cmd).err = some err
      ∧ printed (Run w cmd).trace = []
      ∧ (Run w cmd).trace
        = [Event.reexec, Event.clientNew, Event.prune (pruneRequest w cmd), Event.close] := by
  rw [Run_of_prune_error w cmd err hnew hprune]
  simp [printed]

/-- Claim C6 at a backend whose Prune call fails with the error `bad filter`. -/
theorem Run_prune_error_witness :
    (Run (tableWorld (fun _ => []) (Except.error ⟨goString "bad filter"⟩)) defaultCommand).err
        = some ⟨goString "bad filter"⟩
      ∧ printed
        (Run (tableWorld (fun _ => []) (Except.error ⟨goString "bad filter"⟩))
          defaultCommand).trace = [] :=
  have h := Run_prune_error (tableWorld (fun _ => []) (Except.error ⟨goString "bad filter"⟩))
    defaultCommand ⟨goString "bad filter"⟩ rfl rfl
  ⟨h.1, h.2.1⟩

/-- Claim C8: when `client.New` succeeds, whether `c.Prune` fails or not,
`c.Close()` is called exactly once and is the last step of Run; when
`client.New` fails, Run returns its error with no call to `c.Prune` (nor to
`c.Close()`) and nothing printed. -/
theorem Run_close_once (w : World) (cmd : pruneCommand) :
    (w.clientNew = none →
        closeCount (Run w cmd).trace = 1
          ∧ (Run w cmd).trace.getLast? = some Event.close
          ∧ pruneCalls (Run w cmd).trace = [pruneRequest w cmd])
      ∧ ∀ err, w.clientNew = some err →
          (Run w cmd).err = some err
            ∧ pruneCalls (Run w cmd).trace = []
            ∧ printed (Run w cmd).trace = []
            ∧ closeCount (Run w cmd).trace = 0 := by
  constructor
  · intro hnew
    cases hprune : w.prune (pruneRequest w cmd) with
    | error err =>
      rw [Run_of_prune_error w cmd err hnew hprune]
      simp [closeCount, pruneCalls]
    | ok usage =>
      rw [Run_of_prune_ok w cmd usage hnew hprune]
      cases hdebug : w.debug <;>
        simp [closeCount, pruneCalls, report, hdebug, List.countP_cons, List.filterMap_cons,
          List.getLast?_cons_cons]
  · intro err hnew
    rw [Run_of_new_error w cmd err hnew]
    simp [closeCount, pruneCalls, printed]

/-- Claim C8 at a backend whose Prune call fails: one call of `c.Close()`,
the last step. -/
theorem Run_close_once_witness :
    closeCount
        (Run (tableWorld (fun _ => []) (Except.error ⟨goString "bad filter"⟩))
          defaultCommand).trace = 1
      ∧ (Run (tableWorld (fun _ => []) (Except.error ⟨goString "bad filter"⟩))
          defaultCommand).trace.getLast? = some Event.close :=
  have h := (Run_close_once (tableWorld (fun _ => []) (Except.error ⟨goString "bad filter"⟩))
    defaultCommand).1 rfl
  ⟨h.1, h.2.1⟩

/-! ## Scenario A -/

/-- Claim C4: in table mode, with sizes rendered as the spec has them, the
single record (id `a`, not mutable, not in use, 1000000 bytes, description `x`)
gives the row of cells `a`, `true`, `1MB`, `x` after the header, and the
summary lines `Reclaimed: 1MB` and `Total: 1MB`. -/
theorem Run_scenario_A (w : World) (cmd : pruneCommand)
    (hnew : w.clientNew = none) (hdebug : w.debug = false) (hsize : w.bytesSize = BytesSize)
    (hprune : w.prune (pruneRequest w cmd)
      = Except.ok [⟨goString "a", false, false, 1000000, goString "x"⟩]) :
    formatRow w.bytesSize ⟨goString "a", false, false, 1000000, goString "x"⟩
        = goString "a" ++ [9] ++ goString "true" ++ [9] ++ goString "1MB" ++ [9]
          ++ goString "x" ++ [10]
      ∧ printed (Run w cmd).trace
        = [Event.stdout (goString "ID\tRECLAIMABLE\tSIZE\tDESCRIPTION\na\ttrue\t1MB\tx\n"),
           Event.stdout (goString "Reclaimed:\t1MB\nTotal:\t1MB\n")]
      ∧ (Run w cmd).err = none := by
  rw [printed_Run_of_prune_ok w cmd _ hnew hprune, Run_of_prune_ok w cmd _ hnew hprune]
  refine ⟨?_, ?_, rfl⟩
  · rw [hsize]
    decide
  · have htable : tableText BytesSize [⟨goString "a", false, false, 1000000, goString "x"⟩]
        = goString "ID\tRECLAIMABLE\tSIZE\tDESCRIPTION\na\ttrue\t1MB\tx\n" := by decide
    have hsummary : summaryText BytesSize
        (aggregate [⟨goString "a", false, false, 1000000, goString "x"⟩])
        = goString "Reclaimed:\t1MB\nTotal:\t1MB\n" := by decide
    simp only [report, hdebug, hsize, htable, hsummary]
    rfl

/-- Claim C4 at the world in table mode whose backend returns the record of
scenario A. -/
theorem Run_scenario_A_witness :
    printed
        (Run (tableWorld BytesSize
          (Except.ok [⟨goString "a", false, false, 1000000, goString "x"⟩])) defaultCommand).trace
      = [Event.stdout (goString "ID\tRECLAIMABLE\tSIZE\tDESCRIPTION\na\ttrue\t1MB\tx\n"),
         Event.stdout (goString "Reclaimed:\t1MB\nTotal:\t1MB\n")] :=
  (Run_scenario_A
    (tableWorld BytesSize (Except.ok [⟨goString "a", false, false, 1000000, goString "x"⟩]))
    defaultCommand rfl rfl rfl rfl).2.1

/-! ## The prune request -/

/-- Claim C5, as stated, fails. At keep-storage 1e13 (bit pattern
0x42A2309CE5400000) the product with 1,000,000 is 10^19, already an integer,
which no int64 holds: KeepBytes is the implementation-dependent result of the
conversion, the least int64 on amd64. At the float64 nearest to 0.000001 (bit
pattern 0x3EB0C6F7A0B5ED8D, a little below 0.000001) the product with
1,000,000 is below 1 and truncates to 0, while the float64 multiplication
rounds it to 1.0 and KeepBytes is 1. -/
theorem keepBytes_counterexample :
    Float64.toRat (Float64.frombits 0x42A2309CE5400000) = 10000000000000
      ∧ truncRat (Float64.toRat (Float64.frombits 0x42A2309CE5400000) * 1000000)
        = 10000000000000000000
      ∧ (pruneRequest (tableWorld (fun _ => []) (Except.ok []))
          ⟨0, Float64.frombits 0x42A2309CE5400000, [], false⟩).KeepBytes
        = -9223372036854775808
      ∧ Float64.toRat (Float64.frombits 0x3EB0C6F7A0B5ED8D) * 1000000 < 1
      ∧ truncRat (Float64.toRat (Float64.frombits 0x3EB0C6F7A0B5ED8D) * 1000000) = 0
      ∧ (pruneRequest (tableWorld (fun _ => []) (Except.ok []))
          ⟨0, Float64.frombits 0x3EB0C6F7A0B5ED8D, [], false⟩).KeepBytes = 1 := by
  have hbig : Float64.frombits 0x42A2309CE5400000
      = Float64.finite false 5120000000000000 (-9) := by decide
  have hsmall : Float64.frombits 0x3EB0C6F7A0B5ED8D
      = Float64.finite false 4722366482869645 (-72) := by decide
  have hbig0 : (0 : ℚ) ≤ Float64.toRat (Float64.finite false 5120000000000000 (-9)) * 1000000 := by
    norm_num [Float64.toRat]
  have hsmall0 : (0 : ℚ)
      ≤ Float64.toRat (Float64.finite false 4722366482869645 (-72)) * 1000000 := by
    norm_num [Float64.toRat]
  refine ⟨?_, ?_, by decide, ?_, ?_, by decide⟩
  · rw [hbig]
    norm_num [Float64.toRat]
  · rw [hbig]
    unfold truncRat
    rw [if_pos hbig0, Int.floor_eq_iff]
    norm_num [Float64.toRat]
  · rw [hsmall]
    norm_num [Float64.toRat]
  · rw [hsmall]
    unfold truncRat
    rw [if_pos hsmall0, Int.floor_eq_iff]
    norm_num [Float64.toRat]

/-- Claim C5, amended: the request Run passes to `c.Prune` has as KeepBytes an
int64 that, whenever the float64 product of the keep-storage value and 1e6 is
finite and its integer part fits an int64, is that product truncated towards
zero. The values 1.0, 1.5 and 0 give 1000000, 1500000 and 0. Whenever the
product of the value and 1,000,000 is itself a float64 of magnitude below
2^63, so that the multiplication does not round, KeepBytes is that product
truncated towards zero. -/
theorem pruneRequest_keepBytes (w : World) (cmd : pruneCommand) :
    (w.clientNew = none → pruneCalls (Run w cmd).trace = [pruneRequest w cmd])
      ∧ (-9223372036854775808 ≤ (pruneRequest w cmd).KeepBytes
          ∧ (pruneRequest w cmd).KeepBytes < 9223372036854775808)
      ∧ (∀ sign mant exp,
          Float64.mul cmd.keepStorageMB float64_1e6 = Float64.finite sign mant exp →
          -9223372036854775808
            ≤ truncRat (Float64.toRat (Float64.mul cmd.keepStorageMB float64_1e6)) →
          truncRat (Float64.toRat (Float64.mul cmd.keepStorageMB float64_1e6))
            < 9223372036854775808 →
          (pruneRequest w cmd).KeepBytes
            = truncRat (Float64.toRat (Float64.mul cmd.keepStorageMB float64_1e6)))
      ∧ Float64.toRat (Float64.frombits 0x3FF0000000000000) = 1
      ∧ (cmd.keepStorageMB = Float64.frombits 0x3FF0000000000000 →
          (pruneRequest w cmd).KeepBytes = 1000000)
      ∧ Float64.toRat (Float64.frombits 0x3FF8000000000000) = 3 / 2
      ∧ (cmd.keepStorageMB = Float64.frombits 0x3FF8000000000000 →
          (pruneRequest w cmd).KeepBytes = 1500000)
      ∧ Float64.toRat (Float64.frombits 0) = 0
      ∧ (cmd.keepStorageMB = Float64.frombits 0 → (pruneRequest w cmd).KeepBytes = 0)
      ∧ ∀ sign mant exp, cmd.keepStorageMB = Float64.finite sign mant exp →
          IsFloat64Magnitude ((mant : ℚ) * (2 : ℚ) ^ exp * 1000000) →
          (mant : ℚ) * (2 : ℚ) ^ exp * 1000000 < 9223372036854775808 →
          (pruneRequest w cmd).KeepBytes
            = truncRat (Float64.toRat cmd.keepStorageMB * 1000000) := by
  have h10 : Float64.frombits 0x3FF0000000000000 = Float64.finite false 4503599627370496 (-52) := by
    decide
  have h15 : Float64.frombits 0x3FF8000000000000 = Float64.finite false 6755399441055744 (-52) := by
    decide
  have h00 : Float64.frombits 0 = Float64.finite false 0 (-1074) := by decide
  have t10 : (Float64.mul (Float64.frombits 0x3FF0000000000000) float64_1e6).truncate
      = some 1000000 := by decide
  have t15 : (Float64.mul (Float64.frombits 0x3FF8000000000000) float64_1e6).truncate
      = some 1500000 := by decide
  have t00 : (Float64.mul (Float64.frombits 0) float64_1e6).truncate = some 0 := by decide
  refine ⟨fun hnew => (pruneCalls_Run w cmd hnew),
    int64OfFloat64_range w.int64Unrepresentable _, ?_, ?_, ?_, ?_, ?_, ?_, ?_, ?_⟩
  · intro sign mant exp hmul hlo hhi
    show int64OfFloat64 w.int64Unrepresentable (Float64.mul cmd.keepStorageMB float64_1e6) = _
    rw [hmul] at hlo hhi ⊢
    exact int64OfFloat64_of_range w.int64Unrepresentable sign mant exp hlo hhi
  · rw [h10]
    norm_num [Float64.toRat]
  · intro h
    simp only [pruneRequest, keepBytes, h, t10, int64OfFloat64]
    exact if_pos (by decide)
  · rw [h15]
    norm_num [Float64.toRat]
  · intro h
    simp only [pruneRequest, keepBytes, h, t15, int64OfFloat64]
    exact if_pos (by decide)
  · rw [h00]
    norm_num [Float64.toRat]
  · intro h
    simp only [pruneRequest, keepBytes, h, t00, int64OfFloat64]
    exact if_pos (by decide)
  · intro sign mant exp h hrep hrange
    show keepBytes w.int64Unrepresentable cmd.keepStorageMB = _
    rw [h]
    exact keepBytes_exact w.int64Unrepresentable sign mant exp hrep hrange

/-- The amended claim C5 at the command with keep-storage 1.5 (bit pattern
0x3FF8000000000000, mantissa 6755399441055744 and exponent -52): KeepBytes is
1500000, the product 1.5 * 1000000 truncated. -/
theorem pruneRequest_keepBytes_witness :
    (pruneRequest (tableWorld (fun _ => []) (Except.ok []))
        ⟨0, Float64.frombits 0x3FF8000000000000, [], false⟩).KeepBytes = 1500000
      ∧ IsFloat64Magnitude (((6755399441055744 : Nat) : ℚ) * (2 : ℚ) ^ (-52 : Int) * 1000000)
      ∧ (pruneRequest (tableWorld (fun _ => []) (Except.ok []))
          ⟨0, Float64.finite false 6755399441055744 (-52), [], false⟩).KeepBytes
        = truncRat (Float64.toRat (Float64.finite false 6755399441055744 (-52)) * 1000000) :=
  have hrep : IsFloat64Magnitude
      (((6755399441055744 : Nat) : ℚ) * (2 : ℚ) ^ (-52 : Int) * 1000000) :=
    ⟨1500000, 0, by norm_num, by norm_num, by norm_num, by norm_num⟩
  ⟨(pruneRequest_keepBytes (tableWorld (fun _ => []) (Except.ok []))
      ⟨0, Float64.frombits 0x3FF8000000000000, [], false⟩).2.2.2.2.2.2.1 rfl,
    hrep,
    (pruneRequest_keepBytes (tableWorld (fun _ => []) (Except.ok []))
      ⟨0, Float64.finite false 6755399441055744 (-52), [], false⟩).2.2.2.2.2.2.2.2.2
      false 6755399441055744 (-52) rfl hrep (by norm_num)⟩

end Img
